import Mathlib

/-!
Shallow embedding of the gom dependency fetch-and-build pipeline
(source file: install.go).

The embedding mirrors the Go source function by function:

* `selector` and `CheckoutRun` embed `Gom.Checkout` (revision precedence and
  the VCS-discovery walk);
* `vcsSync` embeds `vcsCmd.Sync` (checkout, fallback update, retried checkout),
  with external command outcomes supplied by an oracle indexed by call count;
* `vcsExecRun` embeds `vcsExec` (save cwd, chdir, run, deferred chdir back);
* `clonePre`, `cloneTail` and `Clone` embed `Gom.Clone`, `Gom.pullPrivate` and
  `Gom.clonePrivate`, with the filesystem probe and external command results
  supplied by a `CloneEnv` oracle and the executed effects recorded in a trace;
* `keepGom`, `runPhase` and `installRun` embed the `install` orchestrator;
* `copyDirFS`, `removeAllFS` and `forkRelocate` give filesystem semantics
  (sets of paths as segment lists) to the fork-to-target relocation step.

Go maps of options become association lists over an `OptVal` that records
whether a value is a string; the Go type assertion `v.(string)` with ignored
ok flag becomes `optString` (non-string values coerce to the empty string),
and the unchecked assertion in `getFork` becomes the `none` case of
`getForkOpt` (a Go panic). Go `strings.Split` on a one-character separator
becomes `splitChar`; `strings.ToLower` becomes `lowerStr`.
-/

/-- Value stored in the dependency option map: either a Go string or a value
of some other dynamic type (whose identity never matters in install.go). -/
inductive OptVal
  | str (s : String)
  | other
deriving DecidableEq, Repr

/-- A dependency: a slash-delimited name plus its option map (read-only). -/
structure Gom where
  name : String
  options : List (String × OptVal)
deriving DecidableEq, Repr

/-- Embeds Go strings.Split with a one-character separator. -/
def splitChar (sep : Char) (s : String) : List String :=
  (s.data.splitOn sep).map (fun cs => String.mk cs)

/-- Embeds Go strings.ToLower (ASCII, which covers the boolString tokens). -/
def lowerStr (s : String) : String := String.mk (s.data.map Char.toLower)

/-- Embeds filepath.Join of two components (paths are treated as opaque
slash-joined strings throughout). -/
def fjoin (a b : String) : String := a ++ "/" ++ b

/-- filepath.Join(vendor, "src", name): the directory of one dependency. -/
def depDir (vendor name : String) : String := fjoin (fjoin vendor "src") name

/-- The boolString map literal of install.go. -/
def boolStringPairs : List (String × Bool) :=
  [("t", true), ("true", true), ("y", true), ("yes", true), ("on", true),
   ("1", true), ("f", false), ("false", false), ("n", false), ("no", false),
   ("off", false), ("0", false)]

/-- Go map indexing boolString[s]: absent keys yield the zero value false. -/
def boolStringGet (s : String) : Bool := (boolStringPairs.lookup s).getD false

/-- Embeds has(gom.options, key) for the map case of install.go. -/
def hasOpt (opts : List (String × OptVal)) (key : String) : Bool :=
  (opts.lookup key).isSome

/-- Go assignment v, _ = x.(string): a non-string or absent value coerces to
the empty string. -/
def optString (v : Option OptVal) : String :=
  match v with
  | some (OptVal.str s) => s
  | _ => ""

/-- The commit_or_branch_or_tag computation of Gom.Checkout: start empty,
then let branch, tag and commit (in that order) each overwrite the value
when the key is present. -/
def selector (opts : List (String × OptVal)) : String :=
  let s0 := ""
  let s1 := if hasOpt opts "branch" then optString (opts.lookup "branch") else s0
  let s2 := if hasOpt opts "tag" then optString (opts.lookup "tag") else s1
  if hasOpt opts "commit" then optString (opts.lookup "commit") else s2

/-- The three version-control variants of install.go. -/
inductive VcsKind
  | git
  | hg
  | bzr
deriving DecidableEq, Repr

/-- The control-metadata probe at one candidate directory: the else-if chain
of Gom.Checkout testing .git, then .hg, then .bzr. -/
def markerAt (isDir : String → Bool) (p : String) : Option VcsKind :=
  if isDir (fjoin p ".git") then some VcsKind.git
  else if isDir (fjoin p ".hg") then some VcsKind.hg
  else if isDir (fjoin p ".bzr") then some VcsKind.bzr
  else none

/-- The discovery loop of Gom.Checkout: extend the path one name segment at a
time and stop at the first prefix whose probe matches. -/
def walkVcs (isDir : String → Bool) : String → List String → Option VcsKind
  | _, [] => none
  | p, e :: rest =>
    match markerAt isDir (fjoin p e) with
    | some v => some v
    | none => walkVcs isDir (fjoin p e) rest

/-- The successive candidate directories the walk visits. -/
def prefixPaths (p : String) : List String → List String
  | [] => []
  | e :: rest => fjoin p e :: prefixPaths (fjoin p e) rest

/-- Outcome of the checkout phase for one dependency: return nil before doing
anything (empty selector), invoke Sync of the discovered variant on the full
dependency directory, or fail with the unsupported-VCS error (the only path
that prints the warning; no external command is represented because none is
executed). -/
inductive CheckoutOut
  | noop
  | sync (v : VcsKind) (dir rev : String)
  | unsupported
deriving DecidableEq, Repr

/-- Embeds Gom.Checkout: the revision selector, the early nil return, the
walk over the split name, and the Sync call on the full directory. -/
def CheckoutRun (isDir : String → Bool) (vendor : String) (gom : Gom) : CheckoutOut :=
  let sel := selector gom.options
  if sel = "" then CheckoutOut.noop
  else
    match walkVcs isDir (fjoin vendor "src") (splitChar '/' gom.name) with
    | some v => CheckoutOut.sync v (depDir vendor gom.name) sel
    | none => CheckoutOut.unsupported

/-- Events recorded by the Sync embedding: one checkout invocation (with its
directory and revision argument) or one update invocation. -/
inductive SyncEv
  | co (p destination : String)
  | up (p : String)
deriving DecidableEq, Repr

/-- Recognizes checkout events. -/
def isCo : SyncEv → Bool
  | SyncEv.co _ _ => true
  | SyncEv.up _ => false

/-- Recognizes update events. -/
def isUp : SyncEv → Bool
  | SyncEv.co _ _ => false
  | SyncEv.up _ => true

/-- Oracle for the outcomes of the external VCS commands: the result of the
n-th checkout invocation and of the n-th update invocation (none means the
command succeeded, some e means it failed with error e). -/
structure VcsOracle where
  checkoutRes : Nat → Option String
  updateRes : Nat → Option String

/-- Embeds vcsCmd.Checkout: record the invocation, outcome from the oracle. -/
def vcsCheckout (o : VcsOracle) (p destination : String) (tr : List SyncEv) :
    List SyncEv × Option String :=
  (tr ++ [SyncEv.co p destination], o.checkoutRes (tr.countP isCo))

/-- Embeds vcsCmd.Update: record the invocation, outcome from the oracle. -/
def vcsUpdate (o : VcsOracle) (p : String) (tr : List SyncEv) :
    List SyncEv × Option String :=
  (tr ++ [SyncEv.up p], o.updateRes (tr.countP isUp))

/-- Embeds vcsCmd.Sync (install.go lines 58-68): checkout; on failure update,
propagating an update failure; otherwise retry checkout once and return that
result. -/
def vcsSync (o : VcsOracle) (p destination : String) (tr : List SyncEv) :
    List SyncEv × Option String :=
  let r1 := vcsCheckout o p destination tr
  match r1.2 with
  | none => (r1.1, none)
  | some _ =>
    let r2 := vcsUpdate o p r1.1
    match r2.2 with
    | some e => (r2.1, some e)
    | none => vcsCheckout o p destination r2.1

/-- Environment for vcsExec: whether os.Getwd fails, which directories
os.Chdir succeeds on, and the outcome of the executed command. -/
structure ExecEnv where
  getwdFails : Bool
  chdirOk : String → Bool
  cmdRes : List String → Option String

/-- The process-wide working directory, the only mutable state of vcsExec. -/
structure CwdWorld where
  cwd : String
deriving DecidableEq, Repr

/-- Embeds vcsExec (install.go lines 70-84): save the working directory,
chdir to dir, run the command, and chdir back in a deferred call whose own
error Go discards. Returns the final world, the list of attempted chdir
targets in order, and the returned error. -/
def vcsExecRun (env : ExecEnv) (w : CwdWorld) (dir : String) (args : List String) :
    CwdWorld × List String × Option String :=
  if env.getwdFails then (w, [], some "getwd error")
  else if env.chdirOk dir then
    let res := env.cmdRes args
    (if env.chdirOk w.cwd then CwdWorld.mk w.cwd else CwdWorld.mk dir,
     [dir, w.cwd], res)
  else (w, [dir], some "chdir error")

/-- Result of os.Stat(srcdir) as install.go consumes it: no error, an error
for which os.IsExist holds, or an error for which it does not (the ordinary
does-not-exist case). -/
inductive StatRes
  | ok
  | errIsExist
  | errNotExist
deriving DecidableEq, Repr

/-- Oracle for Gom.Clone: the resolved vendor directory, the os.Stat outcome
per path, the outcome of each executed command (run), and the outcomes of
mustCopyDir and os.RemoveAll per argument. -/
structure CloneEnv where
  vendor : String
  stat : String → StatRes
  run : List String → Option String
  copyDir : String → String → Option String
  removeAll : String → Option String

/-- Effects Gom.Clone performs, in order: an external command, a recursive
directory copy, a recursive removal. -/
inductive CloneEv
  | run (argv : List String)
  | copy (dst src : String)
  | remove (dir : String)
deriving DecidableEq, Repr

/-- Result of Gom.Clone: a returned Go error value, or a runtime panic. -/
inductive CloneOut
  | ret (e : Option String)
  | panics
deriving DecidableEq, Repr

/-- Embeds getTarget: the target option when it is a string, else the name. -/
def getTarget (gom : Gom) : String :=
  match gom.options.lookup "target" with
  | some (OptVal.str s) => s
  | _ => gom.name

/-- Embeds getFork: the fork option when present (the unchecked type
assertion panics on a non-string value, modelled as none), else getTarget. -/
def getForkOpt (gom : Gom) : Option String :=
  match gom.options.lookup "fork" with
  | some (OptVal.str s) => some s
  | some OptVal.other => none
  | none => some (getTarget gom)

/-- Total convenience form of getForkOpt for statements in which the fork
option, when present, is a string. -/
def getFork (gom : Gom) : String := (getForkOpt gom).getD ""

/-- The default fetch argv of Gom.Clone: go get -d, the extra arguments, and
the fork-or-target identity appended. -/
def goGetArgs (args : List String) (name : String) : List String :=
  ["go", "get", "-d"] ++ args ++ [name]

/-- Embeds Gom.pullPrivate: the Sprintf-built pull command split on single
spaces. The format string carries a stray comma after the first %s, so the
second argv element ends in a comma. -/
def pullPrivateArgs (srcdir : String) : List String :=
  splitChar ' '
    ("git --work-tree=" ++ srcdir ++ ", --git-dir=" ++ srcdir ++ "/.git pull origin")

/-- Embeds the URL computation of Gom.clonePrivate: an HTTPS URL from the
whole name, or an SSH URL from the first three slash-separated segments; the
unguarded index expressions name[1] and name[2] panic (none) when the name
has fewer than three segments. -/
def clonePrivateUrl (name : String) (useHttps : Bool) : Option String :=
  if useHttps then some ("https://" ++ name ++ ".git")
  else
    let parts := splitChar '/' name
    match parts[0]?, parts[1]?, parts[2]? with
    | some a, some b, some c => some ("git@" ++ a ++ ":" ++ b ++ "/" ++ c)
    | _, _, _ => none

/-- The custom-command / private branch of Gom.Clone (lines 106-137), before
the unconditional default fetch. Returns the trace so far and either an early
outcome (a returned error or a panic) or none when control reaches the
default fetch. -/
def clonePre (env : CloneEnv) (gom : Gom) (name : String) :
    List CloneEv × Option CloneOut :=
  match gom.options.lookup "command" with
  | some (OptVal.str command) =>
    let srcdir := depDir env.vendor name
    let customCmd := splitChar ' ' command ++ [srcdir]
    (match env.run customCmd with
     | some e => ([CloneEv.run customCmd], some (CloneOut.ret (some e)))
     | none => ([CloneEv.run customCmd], none))
  | _ =>
    match gom.options.lookup "private" with
    | some (OptVal.str priv) =>
      if boolStringGet (lowerStr priv) then
        let srcdir := depDir env.vendor name
        match env.stat srcdir with
        | StatRes.ok => ([], none)
        | StatRes.errIsExist =>
          let pargs := pullPrivateArgs srcdir
          (match env.run pargs with
           | some e => ([CloneEv.run pargs], some (CloneOut.ret (some e)))
           | none => ([CloneEv.run pargs], none))
        | StatRes.errNotExist =>
          let useHttps :=
            match gom.options.lookup "https" with
            | some (OptVal.str h) => boolStringGet (lowerStr h)
            | _ => false
          match clonePrivateUrl gom.name useHttps with
          | none => ([], some CloneOut.panics)
          | some url =>
            let cargs := ["git", "clone", url, srcdir]
            (match env.run cargs with
             | some e => ([CloneEv.run cargs], some (CloneOut.ret (some e)))
             | none => ([CloneEv.run cargs], none))
      else ([], none)
    | _ => ([], none)

/-- The tail of Gom.Clone (lines 139-164): the unconditional default fetch,
then the fork-to-target relocation (copy, then remove) when a fork option is
present, with the default-fetch result returned only if the relocation steps
succeed. -/
def cloneTail (env : CloneEnv) (gom : Gom) (args : List String) (name : String)
    (tr : List CloneEv) : List CloneEv × CloneOut :=
  let cmdArgs := goGetArgs args name
  let result := env.run cmdArgs
  let tr2 := tr ++ [CloneEv.run cmdArgs]
  if (gom.options.lookup "fork").isSome then
    let src := depDir env.vendor name
    let dst := depDir env.vendor (getTarget gom)
    match env.copyDir dst src with
    | some e => (tr2 ++ [CloneEv.copy dst src], CloneOut.ret (some e))
    | none =>
      match env.removeAll src with
      | some e => (tr2 ++ [CloneEv.copy dst src, CloneEv.remove src], CloneOut.ret (some e))
      | none => (tr2 ++ [CloneEv.copy dst src, CloneEv.remove src], CloneOut.ret result)
  else (tr2, CloneOut.ret result)

/-- Embeds Gom.Clone: resolve the fork-or-target identity (panicking on a
non-string fork value), run the custom-command / private branch, and unless
it returned early, run the default fetch and the relocation tail. -/
def Clone (env : CloneEnv) (gom : Gom) (args : List String) :
    List CloneEv × CloneOut :=
  match getForkOpt gom with
  | none => ([], CloneOut.panics)
  | some name =>
    match clonePre env gom name with
    | (tr, some out) => (tr, out)
    | (tr, none) => cloneTail env gom args name tr

/-- Embeds the filter of install (lines 282-296): keep a dependency unless a
group option is present and fails matchEnv, or a goos option is present and
fails matchOS. The two predicates are the external collaborators of the spec
and are parameters. -/
def keepGom (mE mO : OptVal → Bool) (gom : Gom) : Bool :=
  (match gom.options.lookup "group" with
   | some g => mE g
   | none => true) &&
  (match gom.options.lookup "goos" with
   | some g => mO g
   | none => true)

/-- The three per-dependency phases the orchestrator runs after filtering. -/
inductive Phase
  | fetch
  | pin
  | build
deriving DecidableEq, Repr

/-- Per-dependency outcomes of the three phases, supplied as oracles. -/
structure PhaseResults where
  cloneRes : Gom → Option String
  checkoutRes : Gom → Option String
  buildRes : Gom → Option String

/-- One sequential pass of install: apply the phase to each dependency in
order, stopping at the first error. Returns the events (phase, name) of the
dependencies actually reached, and the first error if any. -/
def runPhase (f : Gom → Option String) (ph : Phase) : List Gom → List (Phase × String) × Option String
  | [] => ([], none)
  | g :: gs =>
    match f g with
    | some e => ([(ph, g.name)], some e)
    | none =>
      let r := runPhase f ph gs
      ((ph, g.name) :: r.1, r.2)

/-- Embeds install (lines 282-323): filter once, then the clone pass, the
checkout pass and the build pass over the filtered list, aborting the whole
run at the first error of any pass. -/
def installRun (mE mO : OptVal → Bool) (pr : PhaseResults) (allGoms : List Gom) :
    List (Phase × String) × Option String :=
  let goms := allGoms.filter (keepGom mE mO)
  let r1 := runPhase pr.cloneRes Phase.fetch goms
  match r1.2 with
  | some e => (r1.1, some e)
  | none =>
    let r2 := runPhase pr.checkoutRes Phase.pin goms
    match r2.2 with
    | some e => (r1.1 ++ r2.1, some e)
    | none =>
      let r3 := runPhase pr.buildRes Phase.build goms
      (r1.1 ++ r2.1 ++ r3.1, r3.2)

/-- The suffix of p below base, when base is a path-prefix of p. Paths are
lists of name segments; a filesystem is the list of existing paths. -/
def pathUnder (base p : List String) : Option (List String) :=
  if base.isPrefixOf p then some (p.drop base.length) else none

/-- Modelled from the spec: mustCopyDir, the generic recursive directory copy
primitive (declared out of scope in the spec and not part of install.go).
Per the spec it is a full recursive copy: every path below src, src itself
included, reappears rebased below dst. -/
def copyDirFS (dst src : List String) (fs : List (List String)) : List (List String) :=
  fs ++ fs.filterMap (fun p => (pathUnder src p).map (fun rem => dst ++ rem))

/-- os.RemoveAll on the path-list filesystem: drop every path having dir as a
path-prefix, dir itself included. -/
def removeAllPaths (dir : List String) (fs : List (List String)) : List (List String) :=
  fs.filter (fun p => !(dir.isPrefixOf p))

/-- The relocation step of Gom.Clone (lines 156-161) on the path-list
filesystem, in source order: mustCopyDir(dst, src) then os.RemoveAll(src). -/
def forkRelocate (fs : List (List String)) (dst src : List String) : List (List String) :=
  removeAllPaths src (copyDirFS dst src fs)

/-- The source directory of the relocation for one dependency, as a segment
path: vendor segments, then src, then the fork-or-target identity segments. -/
def depSrcPath (vendor : List String) (gom : Gom) : List String :=
  vendor ++ "src" :: splitChar '/' (getFork gom)

/-- The destination directory of the relocation, likewise for the target. -/
def depDstPath (vendor : List String) (gom : Gom) : List String :=
  vendor ++ "src" :: splitChar '/' (getTarget gom)

/-- The fork-to-target relocation of one dependency on a path-list
filesystem. -/
def depRelocate (vendor : List String) (gom : Gom) (fs : List (List String)) :
    List (List String) :=
  forkRelocate fs (depDstPath vendor gom) (depSrcPath vendor gom)

/-- Modelled from the spec: the claim phrase "splits the option value on
whitespace", used only to compare the claimed argv with the argv the source
builds via strings.Split on a single space. -/
def specSplitWhitespace (s : String) : List String :=
  (s.data.splitOnP Char.isWhitespace).map (fun cs => String.mk cs)

/-- Clone oracle in which every probe and command succeeds and the
destination directory exists. -/
def envOkAll : CloneEnv :=
  ⟨"v", fun _ => StatRes.ok, fun _ => none, fun _ _ => none, fun _ => none⟩

/-- Clone oracle in which the destination directory does not exist (os.Stat
fails with an error os.IsExist rejects) and every command succeeds. -/
def envAbsent : CloneEnv :=
  ⟨"v", fun _ => StatRes.errNotExist, fun _ => none, fun _ _ => none, fun _ => none⟩

/-- Clone oracle in which every command succeeds but mustCopyDir fails. -/
def envCopyFail : CloneEnv :=
  ⟨"v", fun _ => StatRes.ok, fun _ => none, fun _ _ => some "copyfail", fun _ => none⟩

theorem walk_find (isDir : String → Bool) (segs : List String) (p : String) :
    walkVcs isDir p segs =
      ((prefixPaths p segs).find? (fun q => (markerAt isDir q).isSome)).bind
        (fun q => markerAt isDir q) := by
  induction segs generalizing p with
  | nil => rfl
  | cons e rest ih =>
    cases hm : markerAt isDir (fjoin p e) with
    | some v =>
      have hp : (fun q => (markerAt isDir q).isSome) (fjoin p e) = true := by simp [hm]
      simp [walkVcs, prefixPaths, hm, List.find?_cons_of_pos _ hp]
    | none =>
      have hp : ¬ ((fun q => (markerAt isDir q).isSome) (fjoin p e) = true) := by simp [hm]
      simp [walkVcs, prefixPaths, hm, List.find?_cons_of_neg _ hp, ih]

theorem prefix_free_append {src dst : List String} (h1 : ¬ src <+: dst)
    (h2 : ¬ dst <+: src) (rem : List String) : ¬ src <+: dst ++ rem := by
  intro h
  rcases Nat.le_total src.length dst.length with hle | hle
  · exact h1 (List.prefix_of_prefix_length_le h (List.prefix_append dst rem) hle)
  · exact h2 (List.prefix_of_prefix_length_le (List.prefix_append dst rem) h hle)

theorem runPhase_mem (f : Gom → Option String) (ph : Phase) (l : List Gom)
    (ev : Phase × String) :
    ev ∈ (runPhase f ph l).1 → ∃ g ∈ l, ev = (ph, g.name) := by
  induction l with
  | nil => intro hev; simp [runPhase] at hev
  | cons g gs ih =>
    intro hev
    cases hf : f g with
    | some e =>
      simp only [runPhase, hf] at hev
      simp only [List.mem_singleton] at hev
      exact ⟨g, List.mem_cons_self g gs, hev⟩
    | none =>
      simp only [runPhase, hf] at hev
      rcases List.mem_cons.mp hev with h | h
      · exact ⟨g, List.mem_cons_self g gs, h⟩
      · rcases ih h with ⟨g2, hg2, he⟩
        exact ⟨g2, List.mem_cons_of_mem g hg2, he⟩

theorem cloneTail_trace (env : CloneEnv) (gom : Gom) (args : List String)
    (nm : String) (tr : List CloneEv) :
    ∃ rest, (cloneTail env gom args nm tr).1 =
      tr ++ CloneEv.run (goGetArgs args nm) :: rest := by
  simp only [cloneTail]
  cases hf : (gom.options.lookup "fork").isSome with
  | false => exact ⟨[], by simp⟩
  | true =>
    cases hc : env.copyDir (depDir env.vendor (getTarget gom)) (depDir env.vendor nm) with
    | some e => exact ⟨[CloneEv.copy (depDir env.vendor (getTarget gom)) (depDir env.vendor nm)], by simp⟩
    | none =>
      cases hr : env.removeAll (depDir env.vendor nm) with
      | some e =>
        exact ⟨[CloneEv.copy (depDir env.vendor (getTarget gom)) (depDir env.vendor nm),
                CloneEv.remove (depDir env.vendor nm)], by simp⟩
      | none =>
        exact ⟨[CloneEv.copy (depDir env.vendor (getTarget gom)) (depDir env.vendor nm),
                CloneEv.remove (depDir env.vendor nm)], by simp⟩

/-- C1: vcsCmd.Sync first attempts Checkout; if that succeeds, Update is
never invoked and Sync returns success; if it fails, Update is invoked
exactly once, and then either the Update error is returned (no retry), or
Checkout is retried exactly once and its result (success or error) is
returned. -/
theorem sync_fallback_behavior (o : VcsOracle) (p destination : String) :
    (o.checkoutRes 0 = none →
      vcsSync o p destination [] = ([SyncEv.co p destination], none)) ∧
    (∀ e eu, o.checkoutRes 0 = some e → o.updateRes 0 = some eu →
      vcsSync o p destination [] =
        ([SyncEv.co p destination, SyncEv.up p], some eu)) ∧
    (∀ e, o.checkoutRes 0 = some e → o.updateRes 0 = none →
      vcsSync o p destination [] =
        ([SyncEv.co p destination, SyncEv.up p, SyncEv.co p destination],
         o.checkoutRes 1)) := by
  refine ⟨fun h => ?_, fun e eu h hu => ?_, fun e h hu => ?_⟩
  · simp [vcsSync, vcsCheckout, vcsUpdate, h]
  · simp [vcsSync, vcsCheckout, vcsUpdate, h, hu, isCo, isUp]
  · simp [vcsSync, vcsCheckout, vcsUpdate, h, hu, isCo, isUp]

/-- C1 witness: a revision absent locally: the first checkout fails, update
succeeds, the retried checkout succeeds. -/
theorem sync_fallback_behavior_witness :
    vcsSync ⟨fun n => if n = 0 then some "e" else none, fun _ => none⟩ "d" "r" [] =
      ([SyncEv.co "d" "r", SyncEv.up "d", SyncEv.co "d" "r"], none) :=
  (sync_fallback_behavior ⟨fun n => if n = 0 then some "e" else none, fun _ => none⟩
    "d" "r").2.2 "e" rfl rfl

/-- C2 (code bug): for a truthy-private dependency whose destination
directory exists, os.Stat succeeds, so the source skips the whole private
branch: no pull runs, only the default fetch (first conjunct). When the pull
branch is reachable at all (a stat error accepted by os.IsExist), its argv
carries a stray comma after the work-tree flag, from the Sprintf format
string (second conjunct). The clone-when-absent half of the claim does hold
(third conjunct). -/
theorem private_pull_dead_branch_eval :
    Clone envOkAll ⟨"h/o/r", [("private", OptVal.str "true")]⟩ [] =
      ([CloneEv.run ["go", "get", "-d", "h/o/r"]], CloneOut.ret none) ∧
    pullPrivateArgs "d" =
      ["git", "--work-tree=d,", "--git-dir=d/.git", "pull", "origin"] ∧
    (Clone envAbsent
        ⟨"h/o/r", [("private", OptVal.str "true"), ("https", OptVal.str "yes")]⟩ []).1.head? =
      some (CloneEv.run ["git", "clone", "https://h/o/r.git", "v/src/h/o/r"]) :=
  ⟨by decide, by decide, by decide⟩

/-- C3: the revision selector obeys commit over tag over branch for
string-valued options, and with none of the three options present the
checkout phase is a no-op returning success. -/
theorem revision_precedence (opts : List (String × OptVal)) :
    (∀ c, opts.lookup "commit" = some (OptVal.str c) → selector opts = c) ∧
    (opts.lookup "commit" = none →
      ∀ t, opts.lookup "tag" = some (OptVal.str t) → selector opts = t) ∧
    (opts.lookup "commit" = none → opts.lookup "tag" = none →
      ∀ b, opts.lookup "branch" = some (OptVal.str b) → selector opts = b) ∧
    (opts.lookup "commit" = none → opts.lookup "tag" = none →
      opts.lookup "branch" = none →
      ∀ (isDir : String → Bool) (vendor nm : String),
        CheckoutRun isDir vendor ⟨nm, opts⟩ = CheckoutOut.noop) := by
  refine ⟨fun c hc => ?_, fun hn t ht => ?_, fun hn1 hn2 b hb => ?_,
    fun h1 h2 h3 isDir vendor nm => ?_⟩
  · simp [selector, hasOpt, hc, optString]
  · simp [selector, hasOpt, hn, ht, optString]
  · simp [selector, hasOpt, hn1, hn2, hb, optString]
  · simp [CheckoutRun, selector, hasOpt, h1, h2, h3]

/-- C3 witness: with both branch and commit set, commit wins. -/
theorem revision_precedence_witness :
    selector [("branch", OptVal.str "b"), ("commit", OptVal.str "c")] = "c" :=
  (revision_precedence [("branch", OptVal.str "b"), ("commit", OptVal.str "c")]).1
    "c" (by decide)

/-- C9: the private clone path is not total: with private truthy, https not
set and the destination absent, a two-segment name makes the SSH URL
construction index the split name out of range, and Clone panics instead of
returning an error. -/
theorem clone_private_ssh_panics :
    Clone envAbsent ⟨"host/repo", [("private", OptVal.str "true")]⟩ [] =
      ([], CloneOut.panics) ∧
    (splitChar '/' "host/repo")[2]? = none :=
  ⟨by decide, by decide⟩

/-- C10: a present commit option that is not a string, or is the empty
string, forces the selector to the empty string regardless of any branch or
tag option, and the checkout phase silently no-ops; likewise a non-string or
empty tag option overwrites branch when commit is absent. -/
theorem nonstring_option_overwrites (opts : List (String × OptVal)) (nm vendor : String)
    (isDir : String → Bool) :
    ((opts.lookup "commit" = some OptVal.other ∨
        opts.lookup "commit" = some (OptVal.str "")) →
      selector opts = "" ∧ CheckoutRun isDir vendor ⟨nm, opts⟩ = CheckoutOut.noop) ∧
    (opts.lookup "commit" = none →
      (opts.lookup "tag" = some OptVal.other ∨
        opts.lookup "tag" = some (OptVal.str "")) →
      selector opts = "" ∧ CheckoutRun isDir vendor ⟨nm, opts⟩ = CheckoutOut.noop) := by
  constructor
  · rintro (h | h) <;>
      exact ⟨by simp [selector, hasOpt, h, optString],
             by simp [CheckoutRun, selector, hasOpt, h, optString]⟩
  · rintro hn (h | h) <;>
      exact ⟨by simp [selector, hasOpt, hn, h, optString],
             by simp [CheckoutRun, selector, hasOpt, hn, h, optString]⟩

/-- C10 witness: branch set to b, commit present with a non-string value:
no pin happens and the phase silently succeeds. -/
theorem nonstring_option_overwrites_witness :
    selector [("branch", OptVal.str "b"), ("commit", OptVal.other)] = "" ∧
    CheckoutRun (fun _ => true) "v"
        ⟨"a/b", [("branch", OptVal.str "b"), ("commit", OptVal.other)]⟩ =
      CheckoutOut.noop :=
  (nonstring_option_overwrites [("branch", OptVal.str "b"), ("commit", OptVal.other)]
    "a/b" "v" (fun _ => true)).1 (Or.inl (by decide))

/-- C4 counterexample: the claim fails on degenerate identity pairs. With
fork equal to target (first conjunct) or the two directories nested either
way (second and third conjuncts), the copy-then-remove sequence of Gom.Clone
deletes the copied contents, so after the relocation the target directory
does not contain the former fork contents; in the first case the file f
formerly below the fork directory is gone entirely. -/
theorem fork_relocation_counterexample :
    (depRelocate ["v"] ⟨"a/b", [("fork", OptVal.str "a/b")]⟩
        [["v", "src", "a", "b"], ["v", "src", "a", "b", "f"]] = [] ∧
      ¬ (["v", "src", "a", "b", "f"] ∈
          depRelocate ["v"] ⟨"a/b", [("fork", OptVal.str "a/b")]⟩
            [["v", "src", "a", "b"], ["v", "src", "a", "b", "f"]])) ∧
    depRelocate ["v"] ⟨"a/b", [("fork", OptVal.str "a")]⟩
        [["v", "src", "a"], ["v", "src", "a", "c"]] = [] ∧
    depRelocate ["v"] ⟨"a", [("fork", OptVal.str "a/b")]⟩
        [["v", "src", "a", "b"], ["v", "src", "a", "b", "b"]] = [["v", "src", "a"]] :=
  ⟨⟨by decide, by decide⟩, by decide, by decide⟩

/-- C4 (amended): for a relocation in which neither directory is a path
segment-prefix of the other (in particular fork and target differ), after
the full recursive copy followed by the recursive removal, in that order,
the fork directory and everything below it no longer exists, and the target
directory contains every path that was below the fork directory before. -/
theorem fork_relocation_amended (fs : List (List String)) (src dst : List String)
    (h1 : ¬ src <+: dst) (h2 : ¬ dst <+: src) :
    (∀ p ∈ forkRelocate fs dst src, ¬ src <+: p) ∧
    (∀ p ∈ fs, src <+: p → dst ++ p.drop src.length ∈ forkRelocate fs dst src) := by
  constructor
  · intro p hp hpre
    simp only [forkRelocate, removeAllPaths] at hp
    have hkeep := (List.mem_filter.mp hp).2
    have hb : src.isPrefixOf p = true := List.isPrefixOf_iff_prefix.mpr hpre
    simp [hb] at hkeep
  · intro p hp hpre
    have hmem : dst ++ p.drop src.length ∈ copyDirFS dst src fs := by
      simp only [copyDirFS, List.mem_append, List.mem_filterMap]
      refine Or.inr ⟨p, hp, ?_⟩
      simp [pathUnder, List.isPrefixOf_iff_prefix.mpr hpre]
    simp only [forkRelocate, removeAllPaths, List.mem_filter]
    refine ⟨hmem, ?_⟩
    cases hb : src.isPrefixOf (dst ++ p.drop src.length) with
    | false => rfl
    | true =>
      exact absurd (List.isPrefixOf_iff_prefix.mp hb)
        (prefix_free_append h1 h2 (p.drop src.length))

/-- C4 witness: the spec scenario fork me/repo, target org/repo: a file f
below the fork directory reappears below the target directory. -/
theorem fork_relocation_amended_witness :
    ["v", "src", "org", "repo", "f"] ∈
      forkRelocate [["v", "src", "me", "repo"], ["v", "src", "me", "repo", "f"]]
        ["v", "src", "org", "repo"] ["v", "src", "me", "repo"] :=
  (fork_relocation_amended
      [["v", "src", "me", "repo"], ["v", "src", "me", "repo", "f"]]
      ["v", "src", "me", "repo"] ["v", "src", "org", "repo"]
      (by decide) (by decide)).2
    ["v", "src", "me", "repo", "f"] (by decide) (by decide)

/-- C5: with a non-empty revision selector the pinner walks the slash-split
name segments from the workspace source root: if no visited prefix carries
control metadata the phase fails unsupported, executing nothing; at the
first prefix carrying metadata it invokes Sync of that variant on the full
dependency directory with the selector; and the per-prefix probe prefers
git, then mercurial, then bazaar. -/
theorem vcs_discovery_walk (isDir : String → Bool) (vendor : String) (gom : Gom)
    (hsel : selector gom.options ≠ "") :
    ((∀ q ∈ prefixPaths (fjoin vendor "src") (splitChar '/' gom.name),
        markerAt isDir q = none) →
      CheckoutRun isDir vendor gom = CheckoutOut.unsupported) ∧
    (∀ q v,
      (prefixPaths (fjoin vendor "src") (splitChar '/' gom.name)).find?
          (fun x => (markerAt isDir x).isSome) = some q →
      markerAt isDir q = some v →
      CheckoutRun isDir vendor gom =
        CheckoutOut.sync v (depDir vendor gom.name) (selector gom.options)) ∧
    (∀ q, isDir (fjoin q ".git") = true → markerAt isDir q = some VcsKind.git) ∧
    (∀ q, isDir (fjoin q ".git") = false → isDir (fjoin q ".hg") = true →
      markerAt isDir q = some VcsKind.hg) ∧
    (∀ q, isDir (fjoin q ".git") = false → isDir (fjoin q ".hg") = false →
      isDir (fjoin q ".bzr") = true → markerAt isDir q = some VcsKind.bzr) := by
  refine ⟨fun hall => ?_, fun q v hq hv => ?_, fun q h => ?_, fun q h1 h2 => ?_,
    fun q h1 h2 h3 => ?_⟩
  · have hf : (prefixPaths (fjoin vendor "src") (splitChar '/' gom.name)).find?
        (fun x => (markerAt isDir x).isSome) = none := by
      rw [List.find?_eq_none]
      intro a ha
      simp [hall a ha]
    simp [CheckoutRun, hsel, walk_find, hf]
  · simp [CheckoutRun, hsel, walk_find, hq, hv]
  · simp [markerAt, h]
  · simp [markerAt, h1, h2]
  · simp [markerAt, h1, h2, h3]

/-- C5 witness: name a/b with a tag, a mercurial marker at the first prefix
and no git marker anywhere: Sync of hg runs on the full directory. -/
theorem vcs_discovery_walk_witness :
    CheckoutRun (fun s => s == "v/src/a/.hg") "v" ⟨"a/b", [("tag", OptVal.str "v1")]⟩ =
      CheckoutOut.sync VcsKind.hg "v/src/a/b" "v1" :=
  ((vcs_discovery_walk (fun s => s == "v/src/a/.hg") "v"
      ⟨"a/b", [("tag", OptVal.str "v1")]⟩ (by decide)).2.1)
    "v/src/a" VcsKind.hg (by decide) (by decide)

/-- C7: the install filter is a pure predicate of the group and goos
options: equal group and goos lookups give equal verdicts; a dependency
with neither option is retained; a present group failing matchEnv, or a
present goos failing matchOS, excludes the dependency whatever its other
options; and every phase event of a whole run concerns a dependency that
passed the filter, so filtering precedes every fetch, pin and build step. -/
theorem filter_predicate_spec (mE mO : OptVal → Bool) :
    (∀ g h : Gom, h.options.lookup "group" = g.options.lookup "group" →
      h.options.lookup "goos" = g.options.lookup "goos" →
      keepGom mE mO h = keepGom mE mO g) ∧
    (∀ g : Gom, g.options.lookup "group" = none → g.options.lookup "goos" = none →
      keepGom mE mO g = true) ∧
    (∀ (g : Gom) v, g.options.lookup "group" = some v → mE v = false →
      keepGom mE mO g = false) ∧
    (∀ (g : Gom) v, g.options.lookup "goos" = some v → mO v = false →
      keepGom mE mO g = false) ∧
    (∀ (pr : PhaseResults) (allGoms : List Gom) (ev : Phase × String),
      ev ∈ (installRun mE mO pr allGoms).1 →
      ∃ g ∈ allGoms, keepGom mE mO g = true ∧ ev.2 = g.name) := by
  refine ⟨fun g h hg hgo => ?_, fun g hg hgo => ?_, fun g v hv hm => ?_,
    fun g v hv hm => ?_, fun pr allGoms ev hev => ?_⟩
  · simp [keepGom, hg, hgo]
  · simp [keepGom, hg, hgo]
  · simp [keepGom, hv, hm]
  · simp [keepGom, hv, hm]
  · have hev2 :
        ev ∈ (runPhase pr.cloneRes Phase.fetch (allGoms.filter (keepGom mE mO))).1 ∨
        ev ∈ (runPhase pr.checkoutRes Phase.pin (allGoms.filter (keepGom mE mO))).1 ∨
        ev ∈ (runPhase pr.buildRes Phase.build (allGoms.filter (keepGom mE mO))).1 := by
      simp only [installRun] at hev
      split at hev
      · exact Or.inl hev
      · split at hev
        · rcases List.mem_append.mp hev with h | h
          · exact Or.inl h
          · exact Or.inr (Or.inl h)
        · rcases List.mem_append.mp hev with h | h
          · rcases List.mem_append.mp h with h2 | h2
            · exact Or.inl h2
            · exact Or.inr (Or.inl h2)
          · exact Or.inr (Or.inr h)
    have hgot : ∃ g ∈ allGoms.filter (keepGom mE mO), ev.2 = g.name := by
      rcases hev2 with h | h | h <;>
        · rcases runPhase_mem _ _ _ _ h with ⟨g, hg, he⟩
          exact ⟨g, hg, by rw [he]⟩
    rcases hgot with ⟨g, hg, he⟩
    rcases List.mem_filter.mp hg with ⟨hga, hgk⟩
    exact ⟨g, hga, hgk, he⟩

/-- C7 witness: a dependency whose group fails the active-environment
predicate is excluded even though it has other options. -/
theorem filter_predicate_spec_witness :
    keepGom (fun _ => false) (fun _ => true)
      ⟨"a/b", [("group", OptVal.str "dev"), ("tag", OptVal.str "v1")]⟩ = false :=
  (filter_predicate_spec (fun _ => false) (fun _ => true)).2.2.1
    ⟨"a/b", [("group", OptVal.str "dev"), ("tag", OptVal.str "v1")]⟩
    (OptVal.str "dev") (by decide) rfl

/-- C8: vcsExec leaves the working directory as it found it on every exit
path, whether the invoked command succeeds or fails (given that changing
back to the saved directory succeeds, an error Go discards in the deferred
call); and in the normal path the attempted directory changes are exactly:
switch to the target directory, run the command, switch back, with the
command outcome passed through. -/
theorem vcs_exec_cwd_restore (env : ExecEnv) (w : CwdWorld) (dir : String)
    (args : List String) (hres : env.chdirOk w.cwd = true) :
    (vcsExecRun env w dir args).1 = w ∧
    (env.getwdFails = false → env.chdirOk dir = true →
      (vcsExecRun env w dir args).2.1 = [dir, w.cwd] ∧
      (vcsExecRun env w dir args).2.2 = env.cmdRes args) := by
  constructor
  · simp only [vcsExecRun]
    cases hw : env.getwdFails
    · cases hd : env.chdirOk dir
      · simp
      · simp [hres]
    · simp
  · intro hw hd
    simp [vcsExecRun, hw, hd, hres]

/-- C8 witness: a failing command in an environment where every chdir
succeeds: the directory is switched and restored and the failure is
propagated. -/
theorem vcs_exec_cwd_restore_witness :
    (vcsExecRun ⟨false, fun _ => true, fun _ => some "boom"⟩ ⟨"home"⟩ "d" ["git"]).1 =
      ⟨"home"⟩ ∧
    (vcsExecRun ⟨false, fun _ => true, fun _ => some "boom"⟩ ⟨"home"⟩ "d" ["git"]).2.1 =
      ["d", "home"] :=
  ⟨(vcs_exec_cwd_restore ⟨false, fun _ => true, fun _ => some "boom"⟩ ⟨"home"⟩
      "d" ["git"] rfl).1,
   ((vcs_exec_cwd_restore ⟨false, fun _ => true, fun _ => some "boom"⟩ ⟨"home"⟩
      "d" ["git"] rfl).2 rfl rfl).1⟩

/-- C6 counterexample: two parts of the claim fail. First, the source splits
the command option on single spaces, not on whitespace: a tab-separated
command value stays one argv element, unlike the whitespace split the claim
describes. Second, for a dependency with no command or private options but
a fork whose relocation copy fails, the value returned is the relocation
error and not the default-fetch result (which succeeded). -/
theorem clone_command_counterexample :
    ((Clone envOkAll ⟨"x/y", [("command", OptVal.str "run\tme")]⟩ []).1.head? =
        some (CloneEv.run ["run\tme", "v/src/x/y"]) ∧
      specSplitWhitespace "run\tme" ++ ["v/src/x/y"] = ["run", "me", "v/src/x/y"] ∧
      (["run\tme", "v/src/x/y"] : List String) ≠ ["run", "me", "v/src/x/y"]) ∧
    ((Clone envCopyFail ⟨"x/y", [("fork", OptVal.str "a/b")]⟩ []).2 =
        CloneOut.ret (some "copyfail") ∧
      envCopyFail.run (goGetArgs [] "a/b") = none) :=
  ⟨⟨by decide, by decide, by decide⟩, ⟨by decide, rfl⟩⟩

/-- C6 (amended): with a string command option the fetch engine executes the
option value split on single spaces with the destination directory
(workspace/src/fork-or-target identity) appended as the final argv element,
aborting the dependency if that command fails and otherwise still running
the default fetch; whenever the custom/private branch does not return early
the default fetch go get -d with the extra arguments and the identity
appended runs; and for a dependency with no command and no private options
the default-fetch result is the returned value, provided the fork
relocation, when a fork option is present, does not fail. -/
theorem clone_command_amended (env : CloneEnv) (gom : Gom) (args : List String)
    (nm : String) (hnm : getForkOpt gom = some nm) :
    (∀ c, gom.options.lookup "command" = some (OptVal.str c) →
      ((Clone env gom args).1.head? =
        some (CloneEv.run (splitChar ' ' c ++ [depDir env.vendor nm]))) ∧
      (∀ e, env.run (splitChar ' ' c ++ [depDir env.vendor nm]) = some e →
        Clone env gom args =
          ([CloneEv.run (splitChar ' ' c ++ [depDir env.vendor nm])],
           CloneOut.ret (some e)))) ∧
    ((clonePre env gom nm).2 = none →
      CloneEv.run (goGetArgs args nm) ∈ (Clone env gom args).1) ∧
    (gom.options.lookup "command" = none → gom.options.lookup "private" = none →
      (gom.options.lookup "fork" = none →
        Clone env gom args =
          ([CloneEv.run (goGetArgs args nm)],
           CloneOut.ret (env.run (goGetArgs args nm)))) ∧
      (∀ fv, gom.options.lookup "fork" = some (OptVal.str fv) →
        env.copyDir (depDir env.vendor (getTarget gom)) (depDir env.vendor nm) = none →
        env.removeAll (depDir env.vendor nm) = none →
        (Clone env gom args).2 = CloneOut.ret (env.run (goGetArgs args nm)))) := by
  refine ⟨fun c hc => ?_, fun hpre => ?_, fun hcmd hpriv => ?_⟩
  · cases hr : env.run (splitChar ' ' c ++ [depDir env.vendor nm]) with
    | some e =>
      have hclone : Clone env gom args =
          ([CloneEv.run (splitChar ' ' c ++ [depDir env.vendor nm])],
           CloneOut.ret (some e)) := by
        simp [Clone, hnm, clonePre, hc, hr]
      refine ⟨by simp [hclone], fun e2 hr2 => ?_⟩
      cases hr2
      exact hclone
    | none =>
      have hclone : Clone env gom args =
          cloneTail env gom args nm
            [CloneEv.run (splitChar ' ' c ++ [depDir env.vendor nm])] := by
        simp [Clone, hnm, clonePre, hc, hr]
      refine ⟨?_, fun e2 hr2 => ?_⟩
      · rw [hclone]
        rcases cloneTail_trace env gom args nm
            [CloneEv.run (splitChar ' ' c ++ [depDir env.vendor nm])] with ⟨rest, hrest⟩
        rw [hrest]
        rfl
      · cases hr2
  · rcases hcp : clonePre env gom nm with ⟨tr, o⟩
    rw [hcp] at hpre
    simp only at hpre
    subst hpre
    have hclone : Clone env gom args = cloneTail env gom args nm tr := by
      simp [Clone, hnm, hcp]
    rw [hclone]
    rcases cloneTail_trace env gom args nm tr with ⟨rest, hrest⟩
    rw [hrest]
    simp
  · have hpre0 : clonePre env gom nm = ([], none) := by
      simp [clonePre, hcmd, hpriv]
    have hclone : Clone env gom args = cloneTail env gom args nm [] := by
      simp [Clone, hnm, hpre0]
    refine ⟨fun hfork => ?_, fun fv hfork hcopy hrem => ?_⟩
    · rw [hclone]
      simp [cloneTail, hfork]
    · rw [hclone]
      simp [cloneTail, hfork, hcopy, hrem]

/-- C6 witness: the spec scenario name x/y with command ./fetch.sh: the
invoked argv is the command with the destination directory appended. -/
theorem clone_command_amended_witness :
    (Clone envOkAll ⟨"x/y", [("command", OptVal.str "./fetch.sh")]⟩ []).1.head? =
      some (CloneEv.run ["./fetch.sh", "v/src/x/y"]) :=
  ((clone_command_amended envOkAll ⟨"x/y", [("command", OptVal.str "./fetch.sh")]⟩ []
      "x/y" (by decide)).1 "./fetch.sh" (by decide)).1
